import Mathlib

/-!
Shallow embedding of the business logic of the `memories` blog application:

* the rating aggregation service (`src/lib/comments.ts`:
  `addOrUpdateRating`, `updatePostRating`, `deleteRating`, `getPostRatings`),
* the paginated post listing and client-side search (`getPosts`, `searchPosts`),
* the media helpers (`validateFile`, `uploadFile`, `cleanupTempFiles`).

Firestore is modelled as explicit state: the ratings collection is an
insertion-ordered list of documents, and each post's denormalized aggregate
fields are a function from post id to aggregates.  JavaScript numbers are
modelled as rationals; timestamps are naturals passed in explicitly
(`Timestamp.now()` / `Date.now()` become a `now` parameter).
-/

set_option autoImplicit false

namespace Memories

/-! ### Data model and operations: rating aggregation -/

/-- A persisted document of the `ratings` collection.  `rid` is the Firestore
document id (unique per document); `createdAt` is the stored timestamp. -/
structure RatingDoc where
  rid : Nat
  postId : String
  authorId : String
  rating : Rat
  createdAt : Nat
deriving DecidableEq

/-- The denormalized aggregate fields kept on a `posts` document
(`avgRating`, `totalRatings`). -/
structure PostAgg where
  avgRating : Rat
  totalRatings : Nat
deriving DecidableEq

/-- Backend state seen by the rating service: the `ratings` collection in
insertion order, every post's aggregate fields, and the id allocator. -/
structure DB where
  ratings : List RatingDoc
  posts : String → PostAgg
  nextId : Nat

/-- Fresh state: no ratings; `createPost` initialises every post with
`avgRating = 0, totalRatings = 0`. -/
def dbInit : DB := { ratings := [], posts := fun _ => ⟨0, 0⟩, nextId := 0 }

/-- The Firestore query `where postId == p` over the ratings collection. -/
def postQuery (db : DB) (postId : String) : List RatingDoc :=
  db.ratings.filter (fun r => decide (r.postId = postId))

/-- The Firestore query `where postId == p, where authorId == a`. -/
def pairQuery (db : DB) (postId authorId : String) : List RatingDoc :=
  db.ratings.filter (fun r => decide (r.postId = postId ∧ r.authorId = authorId))

/-- Model of `getPostRatings`: fetch all ratings for a post, then sort
client-side by creation date, newest first. -/
def getPostRatings (db : DB) (postId : String) : List RatingDoc :=
  (postQuery db postId).insertionSort (fun a b => b.createdAt ≤ a.createdAt)

/-- Write a post's aggregate fields (`updateDoc` on the post document). -/
def setPost (db : DB) (postId : String) (agg : PostAgg) : DB :=
  { db with posts := fun p => if p = postId then agg else db.posts p }

/-- JavaScript `Math.round` on a non-negative number: round half up. -/
def jsRound (x : Rat) : Int := ⌊x + 1 / 2⌋

/-- Model of `updatePostRating`: recompute `avgRating` (rounded to one
decimal) and `totalRatings` for `postId` from the persisted ratings and store
them on the post. -/
def updatePostRating (db : DB) (postId : String) : DB :=
  let ratings := getPostRatings db postId
  if ratings.length = 0 then
    setPost db postId ⟨0, 0⟩
  else
    let totalRating : Rat := (ratings.map (fun r => r.rating)).sum
    let avgRating : Rat := totalRating / (ratings.length : Rat)
    setPost db postId ⟨(jsRound (avgRating * 10) : Rat) / 10, ratings.length⟩

/-- Model of `addOrUpdateRating`: query the caller's existing rating for the
post, stage an update (overwrite value, refresh timestamp) or an insert in a
write batch, run `updatePostRating` — which reads only committed documents —
and only then commit the batch.  There is no validation of `rating`. -/
def addOrUpdateRating (now : Nat) (db : DB) (postId : String) (rating : Rat)
    (authorId : String) : DB :=
  let existing := pairQuery db postId authorId
  -- `updatePostRating` is awaited before `batch.commit()`, so the recompute
  -- sees the ratings collection without this call's own staged write.
  let db1 := updatePostRating db postId
  match existing with
  | [] =>
      { db1 with
          ratings := db1.ratings ++ [⟨db.nextId, postId, authorId, rating, now⟩],
          nextId := db.nextId + 1 }
  | r0 :: _ =>
      { db1 with
          ratings := db1.ratings.map (fun s =>
            if s.rid = r0.rid then { s with rating := rating, createdAt := now } else s) }

/-- Model of `deleteRating`: if the pair query is non-empty, delete its first
document and then recompute the post's aggregates; otherwise do nothing. -/
def deleteRating (db : DB) (postId authorId : String) : DB :=
  match pairQuery db postId authorId with
  | [] => db
  | r0 :: _ =>
      let db1 : DB := { db with ratings := db.ratings.filter (fun s => decide (s.rid ≠ r0.rid)) }
      updatePostRating db1 postId

/-- The recompute contract as the specification words it: with no ratings both
aggregate fields are `0`; otherwise the average is `round(mean * 10) / 10` and
the count is the number of rating rows. -/
def recomputeSpec (l : List RatingDoc) : PostAgg :=
  if l.length = 0 then ⟨0, 0⟩
  else ⟨(jsRound ((l.map (fun r => r.rating)).sum / (l.length : Rat) * 10) : Rat) / 10, l.length⟩

/-! ### Data model and operations: post listing and search -/

/-- A `posts` document, restricted to the fields the pagination, search and
tag queries read. -/
structure BlogPost where
  id : String
  title : String
  content : String
  excerpt : String
  tags : List String
  createdAt : Nat
  avgRating : Rat
  viewCount : Nat
deriving DecidableEq

/-- The four sort modes of `getPosts`. -/
inductive SortBy
  | newest
  | oldest
  | rating
  | views
deriving DecidableEq

/-- The single-field `orderBy` clause `getPosts` builds for each sort mode:
`createdAt desc`, `createdAt asc`, `avgRating desc`, `viewCount desc`.
Firestore's tie order for equal keys is backend-defined; a deterministic
stable sort stands in for it. -/
def sortPosts : SortBy → List BlogPost → List BlogPost
  | .newest, l => l.insertionSort (fun a b => b.createdAt ≤ a.createdAt)
  | .oldest, l => l.insertionSort (fun a b => a.createdAt ≤ b.createdAt)
  | .rating, l => l.insertionSort (fun a b => b.avgRating ≤ a.avgRating)
  | .views, l => l.insertionSort (fun a b => b.viewCount ≤ a.viewCount)

/-- One result of `getPosts`: the returned page, the has-more flag, and the
cursor (`lastDoc`), modelled as the absolute index of the last returned
document in the full ordered result set. -/
structure PageResult where
  posts : List BlogPost
  hasMore : Bool
  lastDoc : Option Nat
deriving DecidableEq

/-- Position right after the cursor document: `startAfter cursor` resumes
there. -/
def startOf : Option Nat → Nat
  | none => 0
  | some i => i + 1

/-- The query and client-side bookkeeping of `getPosts` after ordering:
`startAfter` the cursor, `limit (limitCount + 1)`; `hasMore` iff more than
`limitCount` records arrived, in which case the extra record is popped and
`docs[limitCount - 1]` (the last included document) becomes the next cursor.
The JavaScript index `-1` (when `limitCount = 0`) yields `undefined`,
modelled as `none`. -/
def paginate (sorted : List BlogPost) (limitCount : Nat) (cursor : Option Nat) : PageResult :=
  let start := startOf cursor
  let docs := (sorted.drop start).take (limitCount + 1)
  let hasMore : Bool := decide (limitCount < docs.length)
  let posts := if hasMore then docs.dropLast else docs
  let lastDoc : Option Nat :=
    if hasMore then (if limitCount = 0 then none else some (start + (limitCount - 1))) else none
  ⟨posts, hasMore, lastDoc⟩

/-- Model of `getPosts`: order the posts collection by the selected key, then
paginate. -/
def getPosts (corpus : List BlogPost) (sortBy : SortBy) (limitCount : Nat)
    (cursor : Option Nat) : PageResult :=
  paginate (sortPosts sortBy corpus) limitCount cursor

/-- Repeated `getPosts` calls, each passing back the cursor the previous call
returned, until a page reports `hasMore = false` (or the fuel runs out). -/
def collectPages (corpus : List BlogPost) (sortBy : SortBy) (limitCount : Nat) :
    Nat → Option Nat → List PageResult
  | 0, _ => []
  | fuel + 1, cursor =>
      let pg := getPosts corpus sortBy limitCount cursor
      if pg.hasMore then pg :: collectPages corpus sortBy limitCount fuel pg.lastDoc
      else [pg]

/-- An eight-post corpus (createdAt descending), used to instantiate the
pagination theorem at page size 2. -/
def corpus8 : List BlogPost :=
  [⟨"1", "", "", "", [], 8, 0, 0⟩, ⟨"2", "", "", "", [], 7, 0, 0⟩,
   ⟨"3", "", "", "", [], 6, 0, 0⟩, ⟨"4", "", "", "", [], 5, 0, 0⟩,
   ⟨"5", "", "", "", [], 4, 0, 0⟩, ⟨"6", "", "", "", [], 3, 0, 0⟩,
   ⟨"7", "", "", "", [], 2, 0, 0⟩, ⟨"8", "", "", "", [], 1, 0, 0⟩]

/-- JavaScript `toLowerCase`, restricted to the ASCII letters that occur in
the modelled documents. -/
def lowerChar (c : Char) : Char :=
  if 'A' ≤ c ∧ c ≤ 'Z' then Char.ofNat (c.toNat + 32) else c

/-- JavaScript `Array.prototype.join` with a single-space separator. -/
def joinSpaceChars : List (List Char) → List Char
  | [] => []
  | [t] => t
  | t :: ts => t ++ ' ' :: joinSpaceChars ts

/-- The per-post haystack of `searchPosts`: the template literal that places
single spaces between title, content, excerpt and the space-joined tags,
lowercased. -/
def searchContent (p : BlogPost) : List Char :=
  (p.title.data ++ ' ' :: p.content.data ++ ' ' :: p.excerpt.data ++ ' ' ::
    joinSpaceChars (p.tags.map (fun t => t.data))).map lowerChar

/-- JavaScript `String.prototype.split` for a one-character separator: empty
chunks are kept, and the empty string splits to a single empty chunk. -/
def splitOnChar (sep : Char) : List Char → List (List Char)
  | [] => [[]]
  | c :: rest =>
      let r := splitOnChar sep rest
      if c = sep then [] :: r
      else
        match r with
        | [] => [[c]]
        | h :: t => (c :: h) :: t

/-- JavaScript `String.prototype.includes`: substring test. -/
def containsSeq (needle : List Char) : List Char → Bool
  | [] => needle.isEmpty
  | c :: rest => needle.isPrefixOf (c :: rest) || containsSeq needle rest

/-- Model of `searchPosts`: fetch up to 100 newest posts via `getPosts`,
lowercase the query, split it on the space character, and keep every post
whose haystack contains at least one of the resulting tokens. -/
def searchPosts (corpus : List BlogPost) (searchQuery : String) : List BlogPost :=
  let posts := (getPosts corpus SortBy.newest 100 none).posts
  let searchTerms := splitOnChar ' ' (searchQuery.data.map lowerChar)
  posts.filter (fun post => searchTerms.any (fun term => containsSeq term (searchContent post)))

/-- Modelled from the claim's words, for comparison with `searchPosts`: the
same pipeline but splitting the query on whitespace (space, tab, newline,
carriage return), as the sentence "splits the query on whitespace" says. -/
def splitOnWs : List Char → List (List Char)
  | [] => [[]]
  | c :: rest =>
      let r := splitOnWs rest
      if c = ' ' ∨ c = '\t' ∨ c = '\n' ∨ c = '\r' then [] :: r
      else
        match r with
        | [] => [[c]]
        | h :: t => (c :: h) :: t

/-- Modelled from the claim's words: `searchPosts` with whitespace splitting. -/
def searchPostsSpec (corpus : List BlogPost) (searchQuery : String) : List BlogPost :=
  let posts := (getPosts corpus SortBy.newest 100 none).posts
  let searchTerms := splitOnWs (searchQuery.data.map lowerChar)
  posts.filter (fun post => searchTerms.any (fun term => containsSeq term (searchContent post)))

/-- First example post of the search claims (newest). -/
def postAlpha : BlogPost := ⟨"1", "Alpha Trip", "", "", [], 3, 0, 0⟩

/-- Second example post of the search claims. -/
def postBeta : BlogPost := ⟨"2", "Beta Notes", "", "", [], 2, 0, 0⟩

/-- Third example post of the search claims (oldest). -/
def postGamma : BlogPost := ⟨"3", "Gamma", "", "", [], 1, 0, 0⟩

/-- The three example posts of the search claims, newest first. -/
def corpusABG : List BlogPost := [postAlpha, postBeta, postGamma]

/-! ### Data model and operations: media lifecycle -/

/-- Size cap of `validateFile`: 500 MiB. -/
def MAX_SIZE : Nat := 500 * 1024 * 1024

/-- Allowed image MIME types. -/
def ALLOWED_IMAGE_TYPES : List String :=
  ["image/jpeg", "image/jpg", "image/png", "image/webp", "image/gif"]

/-- Allowed video MIME types. -/
def ALLOWED_VIDEO_TYPES : List String :=
  ["video/mp4", "video/mkv", "video/webm", "video/mov", "video/avi"]

/-- The full MIME allow-list. -/
def ALLOWED_TYPES : List String := ALLOWED_IMAGE_TYPES ++ ALLOWED_VIDEO_TYPES

/-- A browser `File`: name, size in bytes, MIME type. -/
structure JsFile where
  name : String
  size : Nat
  type : String
deriving DecidableEq

/-- The result object `validateFile` returns: a `valid` flag and an optional
error message. -/
structure ValidationResult where
  valid : Bool
  error : Option String
deriving DecidableEq

/-- Model of `validateFile`: size check first, then MIME allow-list check. -/
def validateFile (file : JsFile) : ValidationResult :=
  if MAX_SIZE < file.size then
    ⟨false, some "File size exceeds 500MB limit"⟩
  else if file.type ∉ ALLOWED_TYPES then
    ⟨false, some "File type not supported. Please upload images (JPEG, PNG, WebP, GIF) or videos (MP4, MKV, WebM, MOV, AVI)"⟩
  else
    ⟨true, none⟩

/-- The image/video classification of a `MediaItem`. -/
inductive MediaType
  | image
  | video
deriving DecidableEq

/-- The metadata record `uploadFile` returns. -/
structure MediaItem where
  id : String
  url : String
  type : MediaType
  filename : String
  size : Nat
  createdAt : Nat
deriving DecidableEq

/-- Model of `uploadFile`: build the `timestamp-name` filename, choose the
post or temp storage path, store the bytes, classify `image` iff the MIME
type starts with `image/` and `video` otherwise, and return the `MediaItem`
together with the storage path.  No size or MIME validation is performed. -/
def uploadFile (file : JsFile) (userId : String) (postId : Option String)
    (timestamp : Nat) (downloadURL : String) : MediaItem × String :=
  let fileName := toString timestamp ++ "-" ++ file.name
  let storagePath :=
    match postId with
    | some pid => "posts/" ++ pid ++ "/" ++ fileName
    | none => "temp/" ++ userId ++ "/" ++ fileName
  let fileType : MediaType :=
    if "image/".data.isPrefixOf file.type.data then .image else .video
  (⟨fileName, downloadURL, fileType, file.name, file.size, timestamp⟩, storagePath)

/-- One object under the user's temp prefix: its full path and, if the
`getMetadata` call succeeds, its `timeCreated` in milliseconds. -/
structure TempObject where
  path : String
  meta : Option Int
deriving DecidableEq

/-- The 24-hour age threshold of the temp-file sweep, in milliseconds. -/
def oneDayMs : Int := 24 * 60 * 60 * 1000

/-- The per-file loop of `cleanupTempFiles`: the metadata fetch runs inside a
try/catch that swallows failures and continues with the next file, and the
file is deleted when `now - fileTime > oneDayMs` (strict).  Returns the paths
deleted. -/
def cleanupSweep (now : Int) : List TempObject → List String
  | [] => []
  | f :: rest =>
      match f.meta with
      | none => cleanupSweep now rest
      | some t =>
          if oneDayMs < now - t then f.path :: cleanupSweep now rest
          else cleanupSweep now rest

/-- Model of `cleanupTempFiles`: list the user's temp prefix and sweep it;
the outer catch swallows even a listing failure, so the caller never sees an
error.  The `Except` result carries the deleted paths on success — and the
function always succeeds. -/
def cleanupTempFiles (listing : Except String (List TempObject)) (now : Int) :
    Except String (List String) :=
  match listing with
  | .error _ => .ok []
  | .ok files => .ok (cleanupSweep now files)

/-! ### Supporting lemmas -/

/-- The stored aggregates of `updatePostRating` are exactly what the spec
recompute describes, computed over the persisted ratings of the post. -/
theorem updatePostRating_posts (db : DB) (p : String) :
    (updatePostRating db p).posts p = recomputeSpec (postQuery db p) := by
  have hperm : (getPostRatings db p).Perm (postQuery db p) :=
    List.perm_insertionSort _ _
  have hlen : (getPostRatings db p).length = (postQuery db p).length := hperm.length_eq
  have hsum : ((getPostRatings db p).map (fun r => r.rating)).sum
      = ((postQuery db p).map (fun r => r.rating)).sum :=
    (hperm.map (fun r => r.rating)).sum_eq
  unfold updatePostRating recomputeSpec
  simp only [hlen, hsum, setPost]
  by_cases h : (postQuery db p).length = 0 <;> simp [h]

/-- Recomputing a post's aggregates does not touch the ratings collection. -/
theorem updatePostRating_ratings (db : DB) (p : String) :
    (updatePostRating db p).ratings = db.ratings := by
  unfold updatePostRating setPost
  by_cases h : (getPostRatings db p).length = 0 <;> simp [h]

/-- Filtering by pair is filtering the post's rows by author. -/
theorem pairQuery_eq_filter (db : DB) (p a : String) :
    pairQuery db p a = (postQuery db p).filter (fun r => decide (r.authorId = a)) := by
  simp [pairQuery, postQuery, List.filter_filter]
  exact List.filter_congr (fun x _ => Bool.and_comm _ _)

/-- Recomputing a post's aggregates does not change any query result. -/
theorem postQuery_updatePostRating (db : DB) (p q : String) :
    postQuery (updatePostRating db q) p = postQuery db p := by
  simp [postQuery, updatePostRating_ratings]

/-- Sorting a corpus preserves its length. -/
theorem sortPosts_length (sb : SortBy) (l : List BlogPost) :
    (sortPosts sb l).length = l.length := by
  cases sb <;> simp [sortPosts, List.length_insertionSort]

/-- Unfolding equation of `collectPages` at a positive fuel value. -/
theorem collectPages_succ (corpus : List BlogPost) (sortBy : SortBy) (limitCount fuel : Nat)
    (cursor : Option Nat) :
    collectPages corpus sortBy limitCount (fuel + 1) cursor =
      (let pg := getPosts corpus sortBy limitCount cursor
       if pg.hasMore then pg :: collectPages corpus sortBy limitCount fuel pg.lastDoc
       else [pg]) := rfl

/-- A non-final page: when at least `k + 1` documents remain past `start`,
`paginate` returns exactly `k` documents, reports `hasMore`, and points the
cursor at the last returned document. -/
theorem paginate_full (L : List BlogPost) (k : Nat) (c : Option Nat) (hk : 1 ≤ k)
    (h : k + 1 ≤ L.length - startOf c) :
    paginate L k c =
      ⟨(L.drop (startOf c)).take k, true, some (startOf c + (k - 1))⟩ := by
  unfold paginate
  have hdocs : ((L.drop (startOf c)).take (k + 1)).length = k + 1 := by
    simp [List.length_take, List.length_drop]
    omega
  have hmore : decide (k < ((L.drop (startOf c)).take (k + 1)).length) = true := by
    rw [hdocs]; simp
  simp only [hmore, if_true, decide_eq_true_eq]
  have hdl : ((L.drop (startOf c)).take (k + 1)).dropLast = (L.drop (startOf c)).take k := by
    rw [List.dropLast_eq_take, hdocs]
    simp [List.take_take]
  simp [hdl, Nat.pos_iff_ne_zero.mp hk]

/-- A final page: when at most `k` documents remain past `start`, `paginate`
returns all of them, reports no more pages, and returns no cursor. -/
theorem paginate_last (L : List BlogPost) (k : Nat) (c : Option Nat)
    (h : L.length - startOf c ≤ k) :
    paginate L k c = ⟨L.drop (startOf c), false, none⟩ := by
  unfold paginate
  have hdocs : (L.drop (startOf c)).take (k + 1) = L.drop (startOf c) := by
    apply List.take_of_length_le
    simp [List.length_drop]
    omega
  have hlen : (L.drop (startOf c)).length ≤ k := by
    simp [List.length_drop]; omega
  have hmore : decide (k < ((L.drop (startOf c)).take (k + 1)).length) = false := by
    rw [hdocs]; simp; omega
  simp [hmore, hdocs]
  exact ⟨fun hcon => absurd hcon (by omega), by omega, fun hcon => absurd hcon (by omega)⟩

/-- Splitting a query made only of separators always yields an empty token. -/
theorem mem_splitOnChar_all_sep (l : List Char) (h : ∀ c ∈ l, c = ' ') :
    [] ∈ splitOnChar ' ' l := by
  cases l with
  | nil => simp [splitOnChar]
  | cons c rest =>
      have hc : c = ' ' := h c (by simp)
      simp [splitOnChar, hc]

/-- The empty token is a substring of every haystack. -/
theorem containsSeq_nil (hay : List Char) : containsSeq [] hay = true := by
  cases hay <;> simp [containsSeq, List.isPrefixOf]

/-! ### Claim theorems -/

/-- C1: `addOrUpdateRating` awaits `updatePostRating` before committing the
write batch that holds its own rating, so each call's recompute reads the
ratings collection without that call's write.  At the failing input — a fresh
post `p` rated once by author `a` (and then by a second author `b`) — the
persisted aggregates lag one write behind: after one rating `totalRatings` is
`0` (not `1`), and after two distinct authors rate `5` and `3`, `totalRatings`
is `1` and `avgRating` is `5` (not `2` and `4`). -/
theorem C1_aggregates_miss_own_write :
    ((addOrUpdateRating 1 dbInit "p" 5 "a").posts "p").totalRatings = 0 ∧
    (addOrUpdateRating 1 dbInit "p" 5 "a").ratings.length = 1 ∧
    ((addOrUpdateRating 2 (addOrUpdateRating 1 dbInit "p" 5 "a") "p" 3 "b").posts "p").totalRatings
      = 1 ∧
    ((addOrUpdateRating 2 (addOrUpdateRating 1 dbInit "p" 5 "a") "p" 3 "b").posts "p").avgRating
      = 5 := by
  refine ⟨by decide, by decide, by decide, ?_⟩
  simp [addOrUpdateRating, updatePostRating, getPostRatings, postQuery, pairQuery, setPost,
    dbInit, jsRound, List.insertionSort, List.orderedInsert]
  norm_num

/-- C2 counterexample: submitting `stars = 7` (outside `1..5`) does not fail —
`addOrUpdateRating` performs no validation — and the ratings collection is
changed: the out-of-range value `7` is persisted verbatim. -/
theorem C2_counterexample :
    (addOrUpdateRating 1 dbInit "p" 7 "a").ratings = [⟨0, "p", "a", 7, 1⟩] ∧
    dbInit.ratings = [] := by decide

/-- C2 amended: `addOrUpdateRating` accepts every `stars` value, in or out of
`1..5`: after the call the first rating row matching `(postId, authorId)`
carries exactly the submitted value. -/
theorem C2_no_validation (now : Nat) (db : DB) (postId : String) (stars : Rat)
    (authorId : String) :
    (List.head? (pairQuery (addOrUpdateRating now db postId stars authorId) postId authorId)).map
      (fun r => r.rating) = some stars := by
  cases h : pairQuery db postId authorId with
  | nil =>
      simp only [addOrUpdateRating, h]
      simp only [pairQuery, updatePostRating_ratings] at h ⊢
      simp only [List.filter_append, h, List.nil_append]
      simp
  | cons r0 rest =>
      simp only [addOrUpdateRating, h]
      simp only [pairQuery, updatePostRating_ratings] at h ⊢
      rw [List.filter_map]
      have hpred : ∀ s : RatingDoc,
          (decide ((if s.rid = r0.rid then
              { s with rating := stars, createdAt := now } else s).postId = postId ∧
            (if s.rid = r0.rid then
              { s with rating := stars, createdAt := now } else s).authorId = authorId))
          = decide (s.postId = postId ∧ s.authorId = authorId) := by
        intro s
        by_cases hs : s.rid = r0.rid <;> simp [hs]
      simp only [Function.comp_def, hpred, h]
      simp

/-- C3 amended: for every page size `k ≥ 2` and cursor, `getPosts` fetches
`k + 1` records in the selected order; `hasMore` is true exactly when the
extra `(k+1)`-th record exists, the extra record is excluded from the page,
and `nextCursor` is the position of the last included record; consequently
over a corpus of `k*3 + 2` posts, repeatedly passing the returned cursor back
yields exactly 4 pages of sizes `k, k, k, 2` with `hasMore` true on the first
three and false on the last.  (For `k = 1` the corpus of 5 posts instead
yields 5 pages of size 1 — see the counterexample.) -/
theorem C3_pagination (corpus : List BlogPost) (sortBy : SortBy) (k fuel : Nat)
    (hk : 2 ≤ k) (hlen : corpus.length = 3 * k + 2) (hfuel : 4 ≤ fuel) :
    (∀ c : Option Nat,
      ((getPosts corpus sortBy k c).hasMore = true ↔
        (((sortPosts sortBy corpus).drop (startOf c)).take (k + 1)).length = k + 1) ∧
      ((getPosts corpus sortBy k c).posts =
        if (((sortPosts sortBy corpus).drop (startOf c)).take (k + 1)).length = k + 1
        then (((sortPosts sortBy corpus).drop (startOf c)).take (k + 1)).dropLast
        else ((sortPosts sortBy corpus).drop (startOf c)).take (k + 1)) ∧
      ((getPosts corpus sortBy k c).hasMore = true →
        (getPosts corpus sortBy k c).lastDoc = some (startOf c + (k - 1)) ∧
        (sortPosts sortBy corpus)[startOf c + (k - 1)]?
          = (getPosts corpus sortBy k c).posts.getLast?)) ∧
    (collectPages corpus sortBy k fuel none).map (fun pg => (pg.posts.length, pg.hasMore))
      = [(k, true), (k, true), (k, true), (2, false)] := by
  have hL : (sortPosts sortBy corpus).length = 3 * k + 2 := by
    rw [sortPosts_length]; exact hlen
  constructor
  · intro c
    by_cases hfull : k + 1 ≤ (sortPosts sortBy corpus).length - startOf c
    · have hpg : getPosts corpus sortBy k c =
          ⟨((sortPosts sortBy corpus).drop (startOf c)).take k, true,
            some (startOf c + (k - 1))⟩ := by
        unfold getPosts
        exact paginate_full _ _ _ (by omega) hfull
      have hfetched : (((sortPosts sortBy corpus).drop (startOf c)).take (k + 1)).length
          = k + 1 := by
        simp only [List.length_take, List.length_drop]
        omega
      have hdl : (((sortPosts sortBy corpus).drop (startOf c)).take (k + 1)).dropLast
          = ((sortPosts sortBy corpus).drop (startOf c)).take k := by
        rw [List.dropLast_eq_take, hfetched]
        simp [List.take_take]
      have hplen : (((sortPosts sortBy corpus).drop (startOf c)).take k).length = k := by
        simp only [List.length_take, List.length_drop]
        omega
      refine ⟨by simp [hpg, hfetched], by simp [hpg, hfetched, hdl], fun _ => ⟨by simp [hpg], ?_⟩⟩
      rw [hpg]
      show (sortPosts sortBy corpus)[startOf c + (k - 1)]?
        = (((sortPosts sortBy corpus).drop (startOf c)).take k).getLast?
      rw [List.getLast?_eq_getElem?, hplen]
      rw [List.getElem?_take_of_lt (by omega)]
      rw [List.getElem?_drop]
    · have hle : (sortPosts sortBy corpus).length - startOf c ≤ k := by omega
      have hpg : getPosts corpus sortBy k c =
          ⟨(sortPosts sortBy corpus).drop (startOf c), false, none⟩ := by
        unfold getPosts
        exact paginate_last _ _ _ hle
      have hfetched : ((sortPosts sortBy corpus).drop (startOf c)).take (k + 1)
          = (sortPosts sortBy corpus).drop (startOf c) := by
        apply List.take_of_length_le
        simp only [List.length_drop]
        omega
      have hflen : ¬((((sortPosts sortBy corpus).drop (startOf c)).take (k + 1)).length
          = k + 1) := by
        rw [hfetched]
        simp only [List.length_drop]
        omega
      refine ⟨?_, ?_, fun hcon => by rw [hpg] at hcon; simp at hcon⟩
      · rw [hpg]
        constructor
        · intro hcon
          simp at hcon
        · intro hcon
          exact absurd hcon hflen
      · rw [hpg]
        show (sortPosts sortBy corpus).drop (startOf c)
            = if (((sortPosts sortBy corpus).drop (startOf c)).take (k + 1)).length = k + 1
              then (((sortPosts sortBy corpus).drop (startOf c)).take (k + 1)).dropLast
              else ((sortPosts sortBy corpus).drop (startOf c)).take (k + 1)
        rw [if_neg hflen, hfetched]
  · obtain ⟨f, rfl⟩ : ∃ f, fuel = f + 4 := ⟨fuel - 4, by omega⟩
    have h1 : getPosts corpus sortBy k none =
        ⟨((sortPosts sortBy corpus).drop 0).take k, true, some (0 + (k - 1))⟩ := by
      unfold getPosts
      exact paginate_full _ _ _ (by omega) (by simp only [startOf]; omega)
    have hs2 : startOf (some (0 + (k - 1))) = k := by simp only [startOf]; omega
    have h2 : getPosts corpus sortBy k (some (0 + (k - 1))) =
        ⟨((sortPosts sortBy corpus).drop k).take k, true, some (k + (k - 1))⟩ := by
      unfold getPosts
      have := paginate_full (sortPosts sortBy corpus) k (some (0 + (k - 1))) (by omega)
        (by rw [hs2]; omega)
      rwa [hs2] at this
    have hs3 : startOf (some (k + (k - 1))) = 2 * k := by simp only [startOf]; omega
    have h3 : getPosts corpus sortBy k (some (k + (k - 1))) =
        ⟨((sortPosts sortBy corpus).drop (2 * k)).take k, true, some (2 * k + (k - 1))⟩ := by
      unfold getPosts
      have := paginate_full (sortPosts sortBy corpus) k (some (k + (k - 1))) (by omega)
        (by rw [hs3]; omega)
      rwa [hs3] at this
    have hs4 : startOf (some (2 * k + (k - 1))) = 3 * k := by simp only [startOf]; omega
    have h4 : getPosts corpus sortBy k (some (2 * k + (k - 1))) =
        ⟨(sortPosts sortBy corpus).drop (3 * k), false, none⟩ := by
      unfold getPosts
      have := paginate_last (sortPosts sortBy corpus) k (some (2 * k + (k - 1)))
        (by rw [hs4]; omega)
      rwa [hs4] at this
    have hlen1 : (((sortPosts sortBy corpus).drop 0).take k).length = k := by
      simp only [List.length_take, List.length_drop, hL]; omega
    have hlen2 : (((sortPosts sortBy corpus).drop k).take k).length = k := by
      simp only [List.length_take, List.length_drop, hL]; omega
    have hlen3 : (((sortPosts sortBy corpus).drop (2 * k)).take k).length = k := by
      simp only [List.length_take, List.length_drop, hL]; omega
    have hlen4 : ((sortPosts sortBy corpus).drop (3 * k)).length = 2 := by
      simp only [List.length_drop, hL]; omega
    simp only [collectPages_succ, h1, h2, h3, h4]
    simp [hlen1, hlen2, hlen3, hlen4]
    omega

/-- C3 witness: at page size 2 over 8 posts, four pages of sizes
`2, 2, 2, 2` with `hasMore` true, true, true, false. -/
theorem C3_pagination_witness :
    corpus8.length = 3 * 2 + 2 ∧
    (collectPages corpus8 SortBy.newest 2 4 none).map (fun pg => (pg.posts.length, pg.hasMore))
      = [(2, true), (2, true), (2, true), (2, false)] :=
  ⟨by decide,
   (C3_pagination corpus8 SortBy.newest 2 4 (by decide) (by decide) (by decide)).2⟩

/-- C3 counterexample: the claim quantifies over every page size `k`, but at
`k = 1` a corpus of `1*3 + 2 = 5` posts yields five pages of size 1 (the
fourth page still fetches 2 records, so `hasMore` stays true), not four pages
of sizes `1, 1, 1, 2`. -/
theorem C3_counterexample :
    (collectPages
      [⟨"1", "", "", "", [], 5, 0, 0⟩, ⟨"2", "", "", "", [], 4, 0, 0⟩,
       ⟨"3", "", "", "", [], 3, 0, 0⟩, ⟨"4", "", "", "", [], 2, 0, 0⟩,
       ⟨"5", "", "", "", [], 1, 0, 0⟩] SortBy.newest 1 10 none).map
      (fun pg => (pg.posts.length, pg.hasMore))
      = [(1, true), (1, true), (1, true), (1, true), (1, false)] := by decide

/-- C4: at the failing input — author `a` rates post `p` with `5`, then
re-rates with `3` — the row-level invariant does hold (one rating row remains,
its value overwritten to `3`, its timestamp refreshed to `2`), yet the
re-rate increases `totalRatings` from `0` to `1`, because each call's
recompute runs before its own batched write commits. -/
theorem C4_rerate_increases_totalRatings :
    ((addOrUpdateRating 1 dbInit "p" 5 "a").posts "p").totalRatings = 0 ∧
    ((addOrUpdateRating 2 (addOrUpdateRating 1 dbInit "p" 5 "a") "p" 3 "a").posts "p").totalRatings
      = 1 ∧
    (addOrUpdateRating 2 (addOrUpdateRating 1 dbInit "p" 5 "a") "p" 3 "a").ratings.map
      (fun r => (r.rid, r.rating, r.createdAt)) = [(0, 3, 2)] := by decide

/-- C5: `deleteRating` is a no-op when the `(postId, authorId)` pair has no
rating; when it has one, the post's stored aggregates afterwards equal the
spec's recompute over the ratings that remain; in particular deleting a
post's last remaining rating leaves no rating rows for it and resets both
`avgRating` and `totalRatings` to `0` (no division by zero occurs: the empty
case is handled by an explicit branch). -/
theorem C5_deleteRating_recomputes (db : DB) (p a : String) :
    (pairQuery db p a = [] → deleteRating db p a = db) ∧
    (pairQuery db p a ≠ [] →
      (deleteRating db p a).posts p = recomputeSpec (postQuery (deleteRating db p a) p)) ∧
    (∀ r : RatingDoc, postQuery db p = [r] → r.authorId = a →
      postQuery (deleteRating db p a) p = [] ∧ (deleteRating db p a).posts p = ⟨0, 0⟩) := by
  refine ⟨fun h => by simp only [deleteRating, h], fun h => ?_, fun r hr hra => ?_⟩
  · cases hq : pairQuery db p a with
    | nil => exact absurd hq h
    | cons r0 rest =>
        simp only [deleteRating, hq]
        rw [updatePostRating_posts, postQuery_updatePostRating]
  · have hpq : pairQuery db p a = [r] := by
      rw [pairQuery_eq_filter, hr]
      simp [hra]
    have hempty : postQuery (deleteRating db p a) p = [] := by
      simp only [deleteRating, hpq]
      rw [postQuery_updatePostRating]
      have : postQuery
          { db with ratings := db.ratings.filter (fun s => decide (s.rid ≠ r.rid)) } p
          = (postQuery db p).filter (fun s => decide (s.rid ≠ r.rid)) := by
        simp only [postQuery, List.filter_filter]
        exact List.filter_congr (fun x _ => Bool.and_comm _ _)
      rw [this, hr]
      simp
    refine ⟨hempty, ?_⟩
    have hne : pairQuery db p a ≠ [] := by simp [hpq]
    have := (by
      cases hq : pairQuery db p a with
      | nil => exact absurd hq hne
      | cons r0 rest =>
          simp only [deleteRating, hq]
          rw [updatePostRating_posts, postQuery_updatePostRating] :
        (deleteRating db p a).posts p = recomputeSpec (postQuery (deleteRating db p a) p))
    rw [this, hempty]
    simp [recomputeSpec]

/-- C5 witness: on a fresh post rated once by `a`, deleting the absent rating
of `b` is a no-op, and deleting the rating of `a` empties the post's ratings
and resets both aggregate fields to `0`. -/
theorem C5_witness :
    (pairQuery (addOrUpdateRating 1 dbInit "p" 5 "a") "p" "b" = [] ∧
      deleteRating (addOrUpdateRating 1 dbInit "p" 5 "a") "p" "b"
        = addOrUpdateRating 1 dbInit "p" 5 "a") ∧
    (postQuery (addOrUpdateRating 1 dbInit "p" 5 "a") "p" = [⟨0, "p", "a", 5, 1⟩] ∧
      postQuery (deleteRating (addOrUpdateRating 1 dbInit "p" 5 "a") "p" "a") "p" = [] ∧
      (deleteRating (addOrUpdateRating 1 dbInit "p" 5 "a") "p" "a").posts "p" = ⟨0, 0⟩) :=
  ⟨⟨by decide, (C5_deleteRating_recomputes _ "p" "b").1 (by decide)⟩,
   ⟨by decide,
    (C5_deleteRating_recomputes _ "p" "a").2.2 ⟨0, "p", "a", 5, 1⟩ (by decide) (by decide)⟩⟩

/-- C6 counterexample: the code splits the query on the space character only,
not on whitespace.  For the query `"alpha\tbeta"` (a tab between the words)
the whitespace-splitting reading returns the Alpha and Beta posts, but
`searchPosts` keeps the single token `"alpha\tbeta"`, matches nothing, and
returns `[]`. -/
theorem C6_counterexample :
    searchPosts corpusABG "alpha\tbeta" = [] ∧
    searchPostsSpec corpusABG "alpha\tbeta" = [postAlpha, postBeta] := by decide

/-- C6 amended: `searchPosts` returns exactly the posts of the fetched batch
for which at least one token of the query — lowercased and split on the space
character (not general whitespace) — is a substring of the lowercased
concatenation of title, content, excerpt and tags; in particular the query
`"alpha beta"` over the Alpha/Beta/Gamma posts returns exactly the first
two. -/
theorem C6_search_or_semantics (corpus : List BlogPost) (q : String) (p : BlogPost) :
    (p ∈ searchPosts corpus q ↔
      p ∈ (getPosts corpus SortBy.newest 100 none).posts ∧
        ∃ t ∈ splitOnChar ' ' (q.data.map lowerChar), containsSeq t (searchContent p) = true) ∧
    searchPosts corpusABG "alpha beta" = [postAlpha, postBeta] := by
  constructor
  · simp [searchPosts, List.mem_filter, List.any_eq_true]
  · decide

/-- C9: for an empty or all-space query, `searchPosts` returns every post of
the fetched batch (up to the 100-post cap): splitting such a query yields the
empty token, which is a substring of every concatenation. -/
theorem C9_empty_query_returns_batch (corpus : List BlogPost) (q : String)
    (h : ∀ c ∈ q.data, c = ' ') :
    searchPosts corpus q = (getPosts corpus SortBy.newest 100 none).posts := by
  unfold searchPosts
  have hmem : [] ∈ splitOnChar ' ' (q.data.map lowerChar) := by
    apply mem_splitOnChar_all_sep
    intro c hc
    obtain ⟨d, hd, rfl⟩ := List.mem_map.mp hc
    rw [h d hd]
    rfl
  rw [List.filter_eq_self]
  intro post _
  rw [List.any_eq_true]
  exact ⟨[], hmem, containsSeq_nil _⟩

/-- C9 witness: the two-space query over the example corpus returns the whole
batch. -/
theorem C9_witness :
    (∀ c ∈ ("  " : String).data, c = ' ') ∧
    searchPosts corpusABG "  " = (getPosts corpusABG SortBy.newest 100 none).posts :=
  ⟨by decide, C9_empty_query_returns_batch corpusABG "  " (by decide)⟩

/-- C7: `validateFile` reports invalid exactly when the size exceeds 500 MiB
or the MIME type is outside the allowed image/video list; concretely it
rejects a 501 MiB JPEG, accepts a 499 MiB JPEG, and rejects `text/plain`. -/
theorem C7_validateFile (f : JsFile) :
    ((validateFile f).valid = false ↔ (MAX_SIZE < f.size ∨ f.type ∉ ALLOWED_TYPES)) ∧
    (validateFile ⟨"big.jpg", 501 * 1024 * 1024, "image/jpeg"⟩).valid = false ∧
    (validateFile ⟨"ok.jpg", 499 * 1024 * 1024, "image/jpeg"⟩).valid = true ∧
    (validateFile ⟨"note.txt", 10, "text/plain"⟩).valid = false := by
  refine ⟨?_, by decide, by decide, by decide⟩
  by_cases h1 : MAX_SIZE < f.size
  · simp [validateFile, h1]
  · by_cases h2 : f.type ∈ ALLOWED_TYPES <;> simp [validateFile, h1, h2]

/-- C10: `uploadFile` classifies the uploaded item as `image` exactly when
the MIME type starts with `image/` and as `video` for every other MIME type,
and it performs no validation: a `text/plain` file — even one far above the
500 MiB cap that `validateFile` would reject — still yields a `MediaItem`,
with type `video` and the file's size copied verbatim. -/
theorem C10_uploadFile_classification (file : JsFile) (userId : String)
    (postId : Option String) (ts : Nat) (url : String) :
    ((uploadFile file userId postId ts url).1.type = MediaType.image ↔
      "image/".data.isPrefixOf file.type.data = true) ∧
    (uploadFile ⟨"note.txt", 10, "text/plain"⟩ "u" none 1 "u1").1.type = MediaType.video ∧
    ((validateFile ⟨"huge.txt", 600 * 1024 * 1024, "text/plain"⟩).valid = false ∧
      (uploadFile ⟨"huge.txt", 600 * 1024 * 1024, "text/plain"⟩ "u" (some "p") 2 "u2").1.type
        = MediaType.video ∧
      (uploadFile ⟨"huge.txt", 600 * 1024 * 1024, "text/plain"⟩ "u" (some "p") 2 "u2").1.size
        = 600 * 1024 * 1024) := by
  refine ⟨?_, by decide, by decide, by decide, by decide⟩
  by_cases h : "image/".data.isPrefixOf file.type.data <;> simp [uploadFile, h]

/-- C8: for a fixed `now`, `cleanupTempFiles` never surfaces an error (even
when listing fails), and on a successful listing it deletes exactly the
objects whose metadata fetch succeeds and whose creation time is strictly
more than 24 hours in the past; a per-item metadata failure is skipped
without aborting the sweep.  The closed instance puts the failing item first
and shows the boundary object (exactly 24 h old) retained while the sweep
still deletes the older object behind the failure. -/
theorem C8_cleanupTempFiles (now : Int) :
    (∀ e : String, cleanupTempFiles (Except.error e) now = Except.ok []) ∧
    (∀ files : List TempObject,
      cleanupTempFiles (Except.ok files) now =
        Except.ok ((files.filter (fun f =>
          match f.meta with
          | some t => decide (oneDayMs < now - t)
          | none => false)).map (fun f => f.path))) ∧
    cleanupTempFiles
        (Except.ok [⟨"gone", none⟩, ⟨"old", some 5⟩, ⟨"boundary", some 10⟩,
          ⟨"fresh", some 11⟩]) (oneDayMs + 10)
      = Except.ok ["old"] := by
  refine ⟨fun e => rfl, fun files => congrArg Except.ok ?_, by rfl⟩
  induction files with
  | nil => rfl
  | cons f rest ih =>
      cases hm : f.meta with
      | none => simp [cleanupSweep, hm, List.filter_cons, ih]
      | some t =>
          by_cases ht : oneDayMs < now - t <;>
            simp [cleanupSweep, hm, List.filter_cons, ht, ih]

end Memories
